import Mathlib

/-!
Verification of the in-memory event store (`src/stores/memory`) against its
natural-language specification.

The TypeScript sources are shallowly embedded:
  * `StructuredValue` is the tagged union for JSON-like payloads
    (`null | boolean | number | string | sequence | mapping`); JS numbers are
    modelled as `Int` (payloads in this repository only carry integers).
  * JS `Date` timestamps are modelled as `Nat` instants; `Date.toISOString`
    and `new Date(string)` are modelled by a decimal string encoding with a
    proven round trip.
  * Mutation becomes explicit state passing; `throw` becomes `Except`;
    the cooperative read/write lock becomes an explicit labelled transition
    system over its state (reader count, writer flag, FIFO queue).
Components of the repository whose files are not part of the source snapshot
(`queryprocessor.ts`, `readwritelock.ts`, `notifiers/index.ts`) are modelled
from the specification text; their doc comments say so explicitly.
-/

namespace EventStore

/-- The recursive structured value type for event payloads and predicates
(spec §3 StructuredValue): null, boolean, number, string, ordered sequence,
or string-keyed mapping. Mirrors the JSON-like `Record<string, unknown>`
payloads of `types.ts` / the README. -/
inductive StructuredValue where
  | null : StructuredValue
  | bool (b : Bool) : StructuredValue
  | num (n : Int) : StructuredValue
  | str (s : String) : StructuredValue
  | arr (elems : List StructuredValue) : StructuredValue
  | obj (fields : List (String × StructuredValue)) : StructuredValue

mutual
/-- Structural deep equality on structured values (the JS notion of
deep-equal comparison used when matching payload patterns). -/
def deepEquals : StructuredValue → StructuredValue → Bool
  | .null, .null => true
  | .bool a, .bool b => a == b
  | .num a, .num b => a == b
  | .str a, .str b => a == b
  | .arr xs, .arr ys => deepEqualsList xs ys
  | .obj xs, .obj ys => deepEqualsFields xs ys
  | _, _ => false

/-- Deep equality on sequences of structured values, element by element. -/
def deepEqualsList : List StructuredValue → List StructuredValue → Bool
  | [], [] => true
  | x :: xs, y :: ys => deepEquals x y && deepEqualsList xs ys
  | _, _ => false

/-- Deep equality on field lists of mappings (key order significant, as for
JS object literals produced and compared structurally). -/
def deepEqualsFields : List (String × StructuredValue) → List (String × StructuredValue) → Bool
  | [], [] => true
  | (k, v) :: xs, (l, w) :: ys => k == l && deepEquals v w && deepEqualsFields xs ys
  | _, _ => false
end

mutual
theorem deepEquals_iff : ∀ a b : StructuredValue, deepEquals a b = true ↔ a = b
  | .null, .null => by simp [deepEquals]
  | .bool a, .bool b => by simp [deepEquals]
  | .num a, .num b => by simp [deepEquals]
  | .str a, .str b => by simp [deepEquals]
  | .arr xs, .arr ys => by
      simp only [deepEquals, StructuredValue.arr.injEq]
      exact deepEqualsList_iff xs ys
  | .obj xs, .obj ys => by
      simp only [deepEquals, StructuredValue.obj.injEq]
      exact deepEqualsFields_iff xs ys
  | .null, .bool _ | .null, .num _ | .null, .str _ | .null, .arr _ | .null, .obj _
  | .bool _, .null | .bool _, .num _ | .bool _, .str _ | .bool _, .arr _ | .bool _, .obj _
  | .num _, .null | .num _, .bool _ | .num _, .str _ | .num _, .arr _ | .num _, .obj _
  | .str _, .null | .str _, .bool _ | .str _, .num _ | .str _, .arr _ | .str _, .obj _
  | .arr _, .null | .arr _, .bool _ | .arr _, .num _ | .arr _, .str _ | .arr _, .obj _
  | .obj _, .null | .obj _, .bool _ | .obj _, .num _ | .obj _, .str _ | .obj _, .arr _ => by
      simp [deepEquals]

theorem deepEqualsList_iff : ∀ xs ys : List StructuredValue, deepEqualsList xs ys = true ↔ xs = ys
  | [], [] => by simp [deepEqualsList]
  | [], _ :: _ => by simp [deepEqualsList]
  | _ :: _, [] => by simp [deepEqualsList]
  | x :: xs, y :: ys => by
      simp only [deepEqualsList, Bool.and_eq_true, List.cons.injEq]
      exact and_congr (deepEquals_iff x y) (deepEqualsList_iff xs ys)

theorem deepEqualsFields_iff :
    ∀ xs ys : List (String × StructuredValue), deepEqualsFields xs ys = true ↔ xs = ys
  | [], [] => by simp [deepEqualsFields]
  | [], _ :: _ => by simp [deepEqualsFields]
  | _ :: _, [] => by simp [deepEqualsFields]
  | (k, v) :: xs, (l, w) :: ys => by
      simp only [deepEqualsFields, Bool.and_eq_true, List.cons.injEq, Prod.mk.injEq, beq_iff_eq]
      rw [deepEquals_iff v w, deepEqualsFields_iff xs ys, and_assoc]
end

instance : DecidableEq StructuredValue := fun a b =>
  decidable_of_iff (deepEquals a b = true) (deepEquals_iff a b)

/-- An event as supplied by the caller (`types.ts` `Event`): a type tag and a
structured payload. -/
structure Event where
  eventType : String
  payload : StructuredValue
deriving DecidableEq

/-- A stored event record (`types.ts` `EventRecord`): the event plus the
assigned sequence number and the capture timestamp. -/
structure EventRecord where
  sequenceNumber : Nat
  timestamp : Nat
  eventType : String
  payload : StructuredValue
deriving DecidableEq

/-- The event stream state (`eventstream.ts` `EventStream`): the ordered
record list and the last assigned sequence number. -/
structure EventStream where
  eventRecords : List EventRecord
  lastSequenceNumber : Nat
deriving DecidableEq

/-- The empty stream (`new EventStream()`). -/
def EventStream.empty : EventStream := { eventRecords := [], lastSequenceNumber := 0 }

/-- The record-creation loop of `EventStream.append` (`eventstream.ts` lines
9-16): each event in order receives `++lastSequenceNumber` and the capture
time `now`. Returns the created records; `seq` threads the mutable counter. -/
def mkRecords (seq : Nat) (now : Nat) : List Event → List EventRecord
  | [] => []
  | e :: es =>
      { sequenceNumber := seq + 1, timestamp := now,
        eventType := e.eventType, payload := e.payload } :: mkRecords (seq + 1) now es

/-- `EventStream.append` (`eventstream.ts` lines 8-19): create one record per
input event with consecutive sequence numbers and capture time `now`, push
them onto the record list, and return the created records together with the
updated stream. -/
def EventStream.append (s : EventStream) (events : List Event) (now : Nat) :
    List EventRecord × EventStream :=
  let eventRecords := mkRecords s.lastSequenceNumber now events
  (eventRecords,
   { eventRecords := s.eventRecords ++ eventRecords,
     lastSequenceNumber := s.lastSequenceNumber + events.length })

theorem mkRecords_map_seq (now : Nat) :
    ∀ (events : List Event) (seq : Nat),
      (mkRecords seq now events).map (·.sequenceNumber) =
        List.range' (seq + 1) events.length
  | [], _ => rfl
  | _ :: es, seq => by
      simp [mkRecords, List.range'_succ, mkRecords_map_seq now es (seq + 1)]

theorem mkRecords_map_eventType (now : Nat) :
    ∀ (events : List Event) (seq : Nat),
      (mkRecords seq now events).map (·.eventType) = events.map (·.eventType)
  | [], _ => rfl
  | _ :: es, seq => by simp [mkRecords, mkRecords_map_eventType now es (seq + 1)]

theorem mkRecords_map_payload (now : Nat) :
    ∀ (events : List Event) (seq : Nat),
      (mkRecords seq now events).map (·.payload) = events.map (·.payload)
  | [], _ => rfl
  | _ :: es, seq => by simp [mkRecords, mkRecords_map_payload now es (seq + 1)]

theorem mkRecords_map_timestamp (now : Nat) :
    ∀ (events : List Event) (seq : Nat),
      (mkRecords seq now events).map (·.timestamp) =
        List.replicate events.length now
  | [], _ => rfl
  | _ :: es, seq => by
      simp [mkRecords, List.replicate_succ, mkRecords_map_timestamp now es (seq + 1)]

/-! ## Serialization (`eventstream.ts` `serialize` / `deserialize`)

The textual JSON layer (`JSON.stringify` / `JSON.parse` and the string
concatenation in `serialize`) is abstracted to the JSON tree the text
denotes, which is again a `StructuredValue`. The JS `Date` runtime pair
`toISOString` / `new Date(string)` is modelled as a decimal encoding of the
`Nat` instant into a string of digit characters. -/

/-- JS object property lookup on a field list (first matching key). -/
def lookupField : List (String × StructuredValue) → String → Option StructuredValue
  | [], _ => none
  | (k, v) :: rest, key => if k == key then some v else lookupField rest key

/-- The decimal digit characters of `n`, most significant first (model of the
textual rendering of a JS `Date` instant inside `toISOString`). -/
def digitChars (n : Nat) : List Char :=
  if n < 10 then [Char.ofNat (48 + n)]
  else digitChars (n / 10) ++ [Char.ofNat (48 + n % 10)]
decreasing_by
  rename_i h
  exact Nat.div_lt_self (by omega) (by omega)

/-- Numeric value of a decimal digit character. -/
def charToDigit (c : Char) : Nat := c.toNat - 48

/-- Model of `Date.toISOString` (JS runtime, not repository code): renders
the instant as its decimal string. -/
def toISOString (t : Nat) : String := String.mk (digitChars t)

/-- Model of `new Date(string)` on a serialized timestamp: reads the decimal
string back into the instant. -/
def parseDate (s : String) : Nat :=
  s.data.foldl (fun a c => a * 10 + charToDigit c) 0

theorem charToDigit_ofNat (d : Nat) (hd : d < 10) :
    charToDigit (Char.ofNat (48 + d)) = d := by
  interval_cases d <;> decide

theorem foldl_digits_append (xs : List Char) (c : Char) (a : Nat) :
    (xs ++ [c]).foldl (fun a c => a * 10 + charToDigit c) a =
      (xs.foldl (fun a c => a * 10 + charToDigit c) a) * 10 + charToDigit c := by
  simp [List.foldl_append]

theorem foldl_digitChars (n : Nat) :
    ∀ a : Nat, (digitChars n).foldl (fun a c => a * 10 + charToDigit c) a = a * 10 ^ (digitChars n).length + n := by
  induction n using Nat.strong_induction_on with
  | _ n ih =>
    intro a
    by_cases h : n < 10
    · rw [digitChars, if_pos h]
      simp [charToDigit_ofNat n h]
    · rw [digitChars, if_neg h]
      rw [foldl_digits_append, ih (n / 10) (Nat.div_lt_self (by omega) (by decide)) a,
        charToDigit_ofNat (n % 10) (Nat.mod_lt n (by decide))]
      simp only [List.length_append, List.length_singleton]
      rw [pow_succ]
      have hmod := Nat.div_add_mod n 10
      ring_nf
      omega

theorem parseDate_toISOString (t : Nat) : parseDate (toISOString t) = t := by
  have h : (toISOString t).data = digitChars t := rfl
  rw [parseDate, h, foldl_digitChars t 0]
  simp

/-- The per-record serialized object (`eventstream.ts` lines 27-31): the
record's fields with the timestamp replaced by its ISO string, in the
literal's key order (`sequenceNumber`, `timestamp`, `eventType`,
`payload`). -/
def recordToJson (r : EventRecord) : StructuredValue :=
  .obj [("sequenceNumber", .num r.sequenceNumber),
        ("timestamp", .str (toISOString r.timestamp)),
        ("eventType", .str r.eventType),
        ("payload", r.payload)]

/-- The per-record reconstruction in `EventStream.deserialize`
(`eventstream.ts` lines 48-51): take the parsed record object and turn the
timestamp string back into a `Date`. Field extraction from the untyped
parse is fallible, hence `Option`. -/
def jsonToRecord : StructuredValue → Option EventRecord
  | .obj fields =>
    match lookupField fields "sequenceNumber", lookupField fields "timestamp",
          lookupField fields "eventType", lookupField fields "payload" with
    | some (.num sn), some (.str ts), some (.str et), some pl =>
        if 0 ≤ sn then
          some { sequenceNumber := sn.toNat, timestamp := parseDate ts,
                 eventType := et, payload := pl }
        else none
    | _, _, _, _ => none
  | _ => none

/-- `EventStream.serialize` (`eventstream.ts` lines 21-42): a JSON object
with the serialized record array under `events` and the counter under
`lastSequenceNumber`. -/
def EventStream.serialize (s : EventStream) : StructuredValue :=
  .obj [("events", .arr (s.eventRecords.map recordToJson)),
        ("lastSequenceNumber", .num s.lastSequenceNumber)]

/-- `EventStream.deserialize` (`eventstream.ts` lines 44-53): parse the
serialized form, restore `lastSequenceNumber`, and push the reconstructed
records. -/
def EventStream.deserialize (v : StructuredValue) : Option EventStream :=
  match v with
  | .obj fields =>
    match lookupField fields "events", lookupField fields "lastSequenceNumber" with
    | some (.arr evs), some (.num lsn) =>
        match evs.mapM jsonToRecord with
        | some records =>
            if 0 ≤ lsn then
              some { eventRecords := records, lastSequenceNumber := lsn.toNat }
            else none
        | none => none
    | _, _ => none
  | _ => none

theorem jsonToRecord_recordToJson (r : EventRecord) :
    jsonToRecord (recordToJson r) = some r := by
  simp [jsonToRecord, recordToJson, lookupField, parseDate_toISOString]

theorem mapM_jsonToRecord_map_recordToJson :
    ∀ l : List EventRecord, (l.map recordToJson).mapM jsonToRecord = some l
  | [] => rfl
  | r :: rs => by
      rw [List.map_cons, List.mapM_cons, jsonToRecord_recordToJson r,
        mapM_jsonToRecord_map_recordToJson rs]
      rfl

/-! ## Filter engine

The query processor lives in `queryprocessor.ts`, which is not part of the
source snapshot (only its caller `index.ts` is), so the matching functions
below are modelled from the specification text (§4.3). -/

/-- An event filter (`types.ts` `EventFilter`): a list of admissible event
types (empty = any type) and a list of payload predicates, each a mapping
(empty = any payload; an absent predicate list is modelled as the empty
list, which the spec declares equivalent). -/
structure EventFilter where
  eventTypes : List String
  payloadPredicates : List (List (String × StructuredValue))
deriving DecidableEq

/-- An event query (`types.ts` `EventQuery`): an OR-list of filters. -/
structure EventQuery where
  filters : List EventFilter
deriving DecidableEq

/-- `createFilter` (`filter/index.ts` lines 3-11). -/
def createFilter (eventTypes : List String)
    (payloadPredicates : List (List (String × StructuredValue))) : EventFilter :=
  { eventTypes := eventTypes, payloadPredicates := payloadPredicates }

/-- `createQuery` (`filter/index.ts` lines 13-15); the TS function is
variadic over filters. -/
def createQuery (filters : List EventFilter) : EventQuery :=
  { filters := filters }

/-- Does some element of `vs` deep-equal `p`? (containment, not positional
equality). -/
def listAnyDeepEq (p : StructuredValue) (vs : List StructuredValue) : Bool :=
  vs.any (deepEquals p)

mutual
/-- Modelled from the spec: predicate-versus-payload matching of the query
processor (`queryprocessor.ts`, not in the source snapshot). Spec §4.3: a
predicate matches a payload iff every key present in the predicate exists in
the payload at the same path with a deep-equal value; keys absent from the
payload never match; extra payload keys are ignored. -/
def predicateMatches : List (String × StructuredValue) → StructuredValue → Bool
  | [], _ => true
  | (k, pv) :: rest, payload =>
      (match payload with
       | .obj fields =>
         match lookupField fields k with
         | some v => valueMatches pv v
         | none => false
       | _ => false)
      && predicateMatches rest payload

/-- Modelled from the spec: matching of one predicate entry value against the
corresponding payload value. Spec §4.3: mapping-valued entries recurse as
sub-predicates; sequence-valued entries require, for each listed element, a
deep-equal element somewhere in the payload sequence; other values must be
deep-equal. -/
def valueMatches : StructuredValue → StructuredValue → Bool
  | .obj pf, v => predicateMatches pf v
  | .arr ps, v =>
      (match v with
       | .arr vs => arrContains ps vs
       | _ => false)
  | pv, v => deepEquals pv v

/-- Modelled from the spec: every element of the predicate sequence has a
deep-equal element in the payload sequence. -/
def arrContains : List StructuredValue → List StructuredValue → Bool
  | [], _ => true
  | p :: ps, vs => listAnyDeepEq p vs && arrContains ps vs
end

/-- Modelled from the spec: record-versus-filter matching (§4.3): the event
type must be listed (or the type list empty), and, when the predicate list
is non-empty, some predicate must match the payload. -/
def recordMatchesFilter (f : EventFilter) (r : EventRecord) : Bool :=
  (f.eventTypes.isEmpty || f.eventTypes.contains r.eventType) &&
  (f.payloadPredicates.isEmpty ||
    f.payloadPredicates.any (fun p => predicateMatches p r.payload))

/-- Modelled from the spec: record-versus-query matching (§4.3): OR over the
query's filters. -/
def recordMatchesQuery (q : EventQuery) (r : EventRecord) : Bool :=
  q.filters.any (fun f => recordMatchesFilter f r)

/-- Modelled from the spec: `processQuery` (`queryprocessor.ts`, not in the
source snapshot): an absent query matches every record; otherwise keep, in
order, exactly the records matching the query. -/
def processQuery (records : List EventRecord) : Option EventQuery → List EventRecord
  | none => records
  | some q => records.filter (fun r => recordMatchesQuery q r)

/-! ## The memory event store (`index.ts` `MemoryEventStore`) -/

/-- A query result (`types.ts` `QueryResult`). -/
structure QueryResult where
  events : List EventRecord
  maxSequenceNumber : Nat
deriving DecidableEq

/-- The overloaded `queryOrFilter` argument of `query` / `append`; the
`'filters' in queryOrFilter` test of `index.ts` is the tag discrimination. -/
inductive QueryOrFilter where
  | filter (f : EventFilter)
  | query (q : EventQuery)
deriving DecidableEq

/-- The filter-to-query normalization at the top of `query` and inside
`append` (`index.ts` lines 25-27 and 66-68): a bare filter is wrapped via
`createQuery`. -/
def normalizeQuery : Option QueryOrFilter → Option EventQuery
  | none => none
  | some (.filter f) => some (createQuery [f])
  | some (.query q) => some q

/-- The pure body of `queryWithLock` (`index.ts` lines 36-41): run
`processQuery` on the current records and compute `maxSequenceNumber` as the
last matching record's sequence number when the result is non-empty,
otherwise 0 (the trailing `|| 0` of line 40 is the identity here since an
in-range index access cannot be undefined). -/
def queryWithLockResult (records : List EventRecord) (query : Option EventQuery) :
    QueryResult :=
  let matchingEvents := processQuery records query
  let maxSequenceNumber :=
    if matchingEvents.length > 0 then (matchingEvents.getLast?).elim 0 (·.sequenceNumber)
    else 0
  { events := matchingEvents, maxSequenceNumber := maxSequenceNumber }

/-- The store state: the owned event stream plus whether a write-through
filename was configured (`index.ts` lines 11-18; the filename itself only
matters as a flag here). -/
structure MemoryEventStore where
  eventStream : EventStream
  writeThru : Bool
deriving DecidableEq

/-- The error outcomes of `append`: the conflict throw of `index.ts` line 72
and a write-through persistence failure propagating out of `storeToFile`. -/
inductive AppendError where
  | conflict
  | persistenceFailure
deriving DecidableEq

/-- `MemoryEventStore.queryAll` (`index.ts` lines 48-55): read the record
list directly and compute `maxSequenceNumber` from its last element. -/
def MemoryEventStore.queryAll (s : MemoryEventStore) : QueryResult :=
  let events := s.eventStream.eventRecords
  let maxSequenceNumber :=
    if events.length > 0 then (events.getLast?).elim 0 (·.sequenceNumber) else 0
  { events := events, maxSequenceNumber := maxSequenceNumber }

/-- `MemoryEventStore.query` (`index.ts` lines 23-30): normalize the
argument and delegate to `queryWithlock` under a read permit. -/
def MemoryEventStore.query (s : MemoryEventStore) (queryOrFilter : Option QueryOrFilter) :
    QueryResult :=
  queryWithLockResult s.eventStream.eventRecords (normalizeQuery queryOrFilter)

/-- The unconditional tail of `append` (`index.ts` lines 76-83): mutate the
stream via `eventStream.append`, then attempt the write-through persistence
(`storeToFile`), whose failure rejects after the in-memory mutation. -/
def MemoryEventStore.appendBody (s : MemoryEventStore) (events : List Event)
    (persistOk : Bool) (now : Nat) :
    Except AppendError (List EventRecord) × MemoryEventStore :=
  let appended := s.eventStream.append events now
  let s2 : MemoryEventStore := { s with eventStream := appended.2 }
  if s.writeThru && !persistOk then (.error .persistenceFailure, s2)
  else (.ok appended.1, s2)

/-- `MemoryEventStore.append` (`index.ts` lines 61-88), state-passing form.
`expectedMaxSequenceNumber = none` models the two-argument overload; the
JS guard `if (expectedMaxSequenceNumber)` is number truthiness, so both
`undefined` and `0` skip the consistency re-check. On conflict the method
throws before mutating; otherwise `appendBody` runs. The `ok` payload is the
record batch handed to the notifier (the JS method itself resolves with
void). -/
def MemoryEventStore.append (s : MemoryEventStore) (events : List Event)
    (queryOrFilter : Option QueryOrFilter) (expectedMaxSequenceNumber : Option Nat)
    (persistOk : Bool) (now : Nat) :
    Except AppendError (List EventRecord) × MemoryEventStore :=
  if expectedMaxSequenceNumber.getD 0 ≠ 0 then
    let eventQuery := normalizeQuery queryOrFilter
    let currentQueryResult := queryWithLockResult s.eventStream.eventRecords eventQuery
    if currentQueryResult.maxSequenceNumber ≠ expectedMaxSequenceNumber.getD 0 then
      (.error .conflict, s)
    else
      MemoryEventStore.appendBody s events persistOk now
  else
    MemoryEventStore.appendBody s events persistOk now

/-! ## Lock discipline of the store operations

The shared-state accesses and lock operations each public method performs,
in program order, read off `index.ts`. `readRecords` covers reads of the
record sequence (directly, through `processQuery`, or through `serialize`),
`writeRecords` covers the mutation in `eventStream.append`, and
`notifySubscribers` the use of the subscriber list. -/

/-- One observable action of a store method on shared state or the lock. -/
inductive StoreAction where
  | acquireRead
  | releaseRead
  | acquireWrite
  | releaseWrite
  | readRecords
  | writeRecords
  | notifySubscribers
deriving DecidableEq

/-- The action sequence of `query` (`index.ts` lines 23-46): acquire a read
permit, run `processQuery` over the records, release in `finally`. -/
def queryTrace : List StoreAction :=
  [.acquireRead, .readRecords, .releaseRead]

/-- The action sequence of `queryAll` (`index.ts` lines 48-55): it reads
`this.eventStream.eventRecords` directly, with no lock call anywhere in its
body. -/
def queryAllTrace : List StoreAction :=
  [.readRecords]

/-- The action sequence of `append` (`index.ts` lines 61-88) for each branch
shape: `acquireWrite` first; the context re-check (present when the JS guard
accepts) reads the records; a conflict throws past the rest; otherwise the
stream is mutated, write-through serialization reads the records, a
persistence failure throws past the notification; `releaseWrite` runs in
`finally` on every path. -/
def appendTrace (hasContext conflict writeThru persistOk : Bool) : List StoreAction :=
  [.acquireWrite] ++
  (if hasContext then [.readRecords] else []) ++
  (if hasContext && conflict then [] else
    [.writeRecords] ++
    (if writeThru then [.readRecords] else []) ++
    (if writeThru && !persistOk then [] else [.notifySubscribers])) ++
  [.releaseWrite]

/-- Checks a store-action sequence for lock discipline, carrying the current
read-section and write-section nesting depths: every record access must
happen inside a read or write section, every mutation and notification
inside a write section, releases must match acquisitions, and at the end no
section may remain open. -/
def disciplinedFrom : List StoreAction → Nat → Nat → Bool
  | [], r, w => r == 0 && w == 0
  | a :: t, r, w =>
    match a with
    | .acquireRead => disciplinedFrom t (r + 1) w
    | .releaseRead => decide (0 < r) && disciplinedFrom t (r - 1) w
    | .acquireWrite => disciplinedFrom t r (w + 1)
    | .releaseWrite => decide (0 < w) && disciplinedFrom t r (w - 1)
    | .readRecords => decide (0 < r + w) && disciplinedFrom t r w
    | .writeRecords => decide (0 < w) && disciplinedFrom t r w
    | .notifySubscribers => decide (0 < w) && disciplinedFrom t r w

/-- Lock discipline of a complete method invocation (no section open at
entry). -/
def disciplined (t : List StoreAction) : Bool :=
  disciplinedFrom t 0 0

/-! ## The fair read/write lock

`readwritelock.ts` (`ReadWriteLockFIFO`) is not part of the source snapshot
(only its instantiation in `index.ts` line 13 is), so the lock is modelled
from the specification text (§4.2) as a labelled transition system: the
state is the count of active readers, the writer-active flag, and the FIFO
queue of pending requests tagged read/write; arrivals enqueue at the tail;
only the queue head can be granted; a read at the head is admitted whenever
no writer is active (so a contiguous run of readers is admitted by repeated
head grants); a write at the head is admitted only when no writer is active
and no reader is active; releases decrement the count or clear the flag. -/

/-- The class of a lock request. -/
inductive ReqKind where
  | read
  | write
deriving DecidableEq

/-- Modelled from the spec: the state of `ReadWriteLockFIFO` (§4.2): count
of active readers, writer-active flag, FIFO queue of pending requests. -/
structure LockState where
  activeReaders : Nat
  writerActive : Bool
  queue : List (Nat × ReqKind)
deriving DecidableEq

/-- The lock before any request. -/
def LockState.init : LockState :=
  { activeReaders := 0, writerActive := false, queue := [] }

/-- Observable lock events: a request arriving (suspending caller), a
pending request being granted, and the two releases. -/
inductive LockEv where
  | arrive (id : Nat) (k : ReqKind)
  | grant (id : Nat) (k : ReqKind)
  | releaseRead
  | releaseWrite
deriving DecidableEq

/-- Modelled from the spec: one transition of `ReadWriteLockFIFO`
(`readwritelock.ts`, not in the source snapshot), following §4.2. `none`
means the event is not enabled in this state. -/
def lockStep (s : LockState) : LockEv → Option LockState
  | .arrive id k => some { s with queue := s.queue ++ [(id, k)] }
  | .grant id k =>
    match s.queue, k with
    | [], _ => none
    | (id0, k0) :: rest, .read =>
        if id = id0 ∧ ReqKind.read = k0 ∧ s.writerActive = false then
          some { s with activeReaders := s.activeReaders + 1, queue := rest }
        else none
    | (id0, k0) :: rest, .write =>
        if id = id0 ∧ ReqKind.write = k0 ∧ s.writerActive = false ∧ s.activeReaders = 0 then
          some { s with writerActive := true, queue := rest }
        else none
  | .releaseRead =>
      if s.activeReaders = 0 then none
      else some { s with activeReaders := s.activeReaders - 1 }
  | .releaseWrite =>
      if s.writerActive then some { s with writerActive := false } else none

/-- Run a sequence of lock events from a state; `none` if any event is not
enabled where it occurs. -/
def runLock (s : LockState) : List LockEv → Option LockState
  | [] => some s
  | e :: t =>
    match lockStep s e with
    | some s2 => runLock s2 t
    | none => none

/-- The request ids of a trace's arrival events, in order. -/
def arrivals : List LockEv → List Nat
  | [] => []
  | .arrive id _ :: t => id :: arrivals t
  | _ :: t => arrivals t

/-- The request ids of a trace's grant events, in order. -/
def grants : List LockEv → List Nat
  | [] => []
  | .grant id _ :: t => id :: grants t
  | _ :: t => grants t

/-- Number of read grants in a trace. -/
def readGrantCount : List LockEv → Nat
  | [] => 0
  | .grant _ .read :: t => readGrantCount t + 1
  | _ :: t => readGrantCount t

/-- Number of read releases in a trace. -/
def readReleaseCount : List LockEv → Nat
  | [] => 0
  | .releaseRead :: t => readReleaseCount t + 1
  | _ :: t => readReleaseCount t

/-- The request ids still pending in a lock state, in queue order. -/
def queueIds (s : LockState) : List Nat :=
  s.queue.map Prod.fst

/-! ## Lock lemmas -/

theorem runLock_append (t₁ t₂ : List LockEv) :
    ∀ s : LockState, runLock s (t₁ ++ t₂) =
      (runLock s t₁).bind (fun s2 => runLock s2 t₂) := by
  induction t₁ with
  | nil => intro s; simp [runLock]
  | cons e t ih =>
      intro s
      simp only [List.cons_append, runLock]
      cases lockStep s e with
      | none => rfl
      | some s1 => exact ih s1

theorem lock_grants_follow_arrivals :
    ∀ (t : List LockEv) (s s2 : LockState), runLock s t = some s2 →
      queueIds s ++ arrivals t = grants t ++ queueIds s2 := by
  intro t
  induction t with
  | nil =>
      intro s s2 h
      simp only [runLock, Option.some.injEq] at h
      simp [h, arrivals, grants]
  | cons e t ih =>
      intro s s2 h
      simp only [runLock] at h
      cases he : lockStep s e with
      | none => rw [he] at h; exact absurd h (by simp)
      | some s1 =>
          rw [he] at h
          have ihs := ih s1 s2 h
          cases e with
          | arrive id k =>
              simp only [lockStep, Option.some.injEq] at he
              subst he
              simp only [arrivals, grants, queueIds] at ihs ⊢
              rw [← ihs]
              simp
          | grant id k =>
              simp only [lockStep] at he
              split at he
              · exact absurd he (by simp)
              · split at he
                · rename_i id0 k0 rest hq hid
                  simp only [Option.some.injEq] at he
                  have hq1 : s1.queue = rest := by rw [← he]
                  obtain ⟨hid1, _⟩ := hid
                  subst hid1
                  simp only [arrivals, grants, queueIds, hq, hq1, List.map_cons,
                    List.cons_append] at ihs ⊢
                  exact congrArg (List.cons id) ihs
                · exact absurd he (by simp)
              · split at he
                · rename_i id0 k0 rest hq hid
                  simp only [Option.some.injEq] at he
                  have hq1 : s1.queue = rest := by rw [← he]
                  obtain ⟨hid1, _⟩ := hid
                  subst hid1
                  simp only [arrivals, grants, queueIds, hq, hq1, List.map_cons,
                    List.cons_append] at ihs ⊢
                  exact congrArg (List.cons id) ihs
                · exact absurd he (by simp)
          | releaseRead =>
              simp only [lockStep] at he
              by_cases hr : s.activeReaders = 0
              · rw [if_pos hr] at he; exact absurd he (by simp)
              · rw [if_neg hr] at he
                simp only [Option.some.injEq] at he
                have hq1 : s1.queue = s.queue := by rw [← he]
                simpa [arrivals, grants, queueIds, hq1] using ihs
          | releaseWrite =>
              simp only [lockStep] at he
              by_cases hw : s.writerActive
              · rw [if_pos hw] at he
                simp only [Option.some.injEq] at he
                have hq1 : s1.queue = s.queue := by rw [← he]
                simpa [arrivals, grants, queueIds, hq1] using ihs
              · rw [if_neg hw] at he; exact absurd he (by simp)

theorem lock_reader_count :
    ∀ (t : List LockEv) (s s2 : LockState), runLock s t = some s2 →
      s.activeReaders + readGrantCount t = readReleaseCount t + s2.activeReaders := by
  intro t
  induction t with
  | nil =>
      intro s s2 h
      simp only [runLock, Option.some.injEq] at h
      simp [h, readGrantCount, readReleaseCount]
  | cons e t ih =>
      intro s s2 h
      simp only [runLock] at h
      cases he : lockStep s e with
      | none => rw [he] at h; exact absurd h (by simp)
      | some s1 =>
          rw [he] at h
          have ihs := ih s1 s2 h
          cases e with
          | arrive id k =>
              simp only [lockStep, Option.some.injEq] at he
              have hr : s1.activeReaders = s.activeReaders := by rw [← he]
              simpa [readGrantCount, readReleaseCount, hr] using ihs
          | grant id k =>
              simp only [lockStep] at he
              split at he
              · exact absurd he (by simp)
              · split at he
                · simp only [Option.some.injEq] at he
                  have hr : s1.activeReaders = s.activeReaders + 1 := by rw [← he]
                  simp only [readGrantCount, readReleaseCount] at ihs ⊢
                  omega
                · exact absurd he (by simp)
              · split at he
                · simp only [Option.some.injEq] at he
                  have hr : s1.activeReaders = s.activeReaders := by rw [← he]
                  simpa [readGrantCount, readReleaseCount, hr] using ihs
                · exact absurd he (by simp)
          | releaseRead =>
              simp only [lockStep] at he
              by_cases hr : s.activeReaders = 0
              · rw [if_pos hr] at he; exact absurd he (by simp)
              · rw [if_neg hr] at he
                simp only [Option.some.injEq] at he
                have hr1 : s1.activeReaders = s.activeReaders - 1 := by rw [← he]
                simp only [readGrantCount, readReleaseCount] at ihs ⊢
                omega
          | releaseWrite =>
              simp only [lockStep] at he
              by_cases hw : s.writerActive
              · rw [if_pos hw] at he
                simp only [Option.some.injEq] at he
                have hr : s1.activeReaders = s.activeReaders := by rw [← he]
                simpa [readGrantCount, readReleaseCount, hr] using ihs
              · rw [if_neg hw] at he; exact absurd he (by simp)

theorem lockStep_grant_write (s s2 : LockState) (id : Nat)
    (h : lockStep s (.grant id .write) = some s2) :
    s.writerActive = false ∧ s.activeReaders = 0 := by
  simp only [lockStep] at h
  split at h
  · exact absurd h (by simp)
  · rename_i hk
    exact absurd hk (by simp)
  · split at h
    · rename_i hcond
      exact ⟨hcond.2.2.1, hcond.2.2.2⟩
    · exact absurd h (by simp)

theorem runLock_cons_inv (s : LockState) (e : LockEv) (t : List LockEv) (s2 : LockState)
    (h : runLock s (e :: t) = some s2) :
    ∃ s1, lockStep s e = some s1 ∧ runLock s1 t = some s2 := by
  simp only [runLock] at h
  cases he : lockStep s e with
  | none => rw [he] at h; exact absurd h (by simp)
  | some s1 => rw [he] at h; exact ⟨s1, rfl, h⟩

theorem runLock_append_inv (t₁ t₂ : List LockEv) (s s2 : LockState)
    (h : runLock s (t₁ ++ t₂) = some s2) :
    ∃ s1, runLock s t₁ = some s1 ∧ runLock s1 t₂ = some s2 := by
  rw [runLock_append] at h
  cases h1 : runLock s t₁ with
  | none => rw [h1] at h; exact absurd h (by simp)
  | some s1 =>
      rw [h1] at h
      exact ⟨s1, rfl, h⟩

/-- C9: for every sequence of lock acquisition requests accepted by the
modelled `ReadWriteLockFIFO`, grants happen in strict arrival order — the id
sequence of grants extended by the still-pending queue is exactly the id
sequence of arrivals, so with K reads queued before a write all K are
granted before it and no read queued after the write is admitted before it —
and at the moment any write is granted, every previously admitted read has
already completed (as many read releases as read grants have occurred);
readers admitted together are unconstrained among themselves (their release
events may occur in any order the step relation accepts). -/
theorem c9_lock_fifo_fairness :
    ∀ (t : List LockEv) (s : LockState), runLock LockState.init t = some s →
      (arrivals t = grants t ++ queueIds s) ∧
      (∀ t₁ id t₂, t = t₁ ++ LockEv.grant id .write :: t₂ →
        readGrantCount t₁ = readReleaseCount t₁) := by
  intro t s h
  constructor
  · have hinv := lock_grants_follow_arrivals t LockState.init s h
    simpa [LockState.init, queueIds] using hinv
  · intro t₁ id t₂ ht
    subst ht
    obtain ⟨s1, h1, h2⟩ := runLock_append_inv t₁ _ LockState.init s h
    obtain ⟨s2, hstep, _⟩ := runLock_cons_inv s1 _ t₂ s h2
    have hg := lockStep_grant_write s1 s2 id hstep
    have hc := lock_reader_count t₁ LockState.init s1 h1
    simp only [LockState.init] at hc
    omega

/-- Witness for C9: a concrete valid trace — two reads arrive, then a write,
then the reads are granted, a later read arrives behind the write, both
reads release, the write is granted and releases, and only then the late
read is granted — instantiating both conjuncts of the fairness theorem. -/
theorem c9_lock_fifo_fairness_witness :
    (arrivals
        [.arrive 1 .read, .arrive 2 .read, .arrive 3 .write, .grant 1 .read,
         .grant 2 .read, .arrive 4 .read, .releaseRead, .releaseRead,
         .grant 3 .write, .releaseWrite, .grant 4 .read] =
      grants
        [.arrive 1 .read, .arrive 2 .read, .arrive 3 .write, .grant 1 .read,
         .grant 2 .read, .arrive 4 .read, .releaseRead, .releaseRead,
         .grant 3 .write, .releaseWrite, .grant 4 .read] ++
      queueIds { activeReaders := 1, writerActive := false, queue := [] }) ∧
    readGrantCount
        [.arrive 1 .read, .arrive 2 .read, .arrive 3 .write, .grant 1 .read,
         .grant 2 .read, .arrive 4 .read, .releaseRead, .releaseRead] =
      readReleaseCount
        [.arrive 1 .read, .arrive 2 .read, .arrive 3 .write, .grant 1 .read,
         .grant 2 .read, .arrive 4 .read, .releaseRead, .releaseRead] := by
  constructor
  · exact (c9_lock_fifo_fairness _
      { activeReaders := 1, writerActive := false, queue := [] } (by decide)).1
  · exact (c9_lock_fifo_fairness
      [.arrive 1 .read, .arrive 2 .read, .arrive 3 .write, .grant 1 .read,
       .grant 2 .read, .arrive 4 .read, .releaseRead, .releaseRead,
       .grant 3 .write, .releaseWrite, .grant 4 .read]
      { activeReaders := 1, writerActive := false, queue := [] } (by decide)).2
      [.arrive 1 .read, .arrive 2 .read, .arrive 3 .write, .grant 1 .read,
       .grant 2 .read, .arrive 4 .read, .releaseRead, .releaseRead]
      3 [.releaseWrite, .grant 4 .read] (by decide)

/-- C4: for every stream with last sequence number S and every list of N
input events, `EventStream.append` assigns sequence numbers S+1 … S+N in
input order, preserves each event's type and payload, stamps every created
record with the capture time, appends the created records at the end of the
record sequence, returns exactly that ordered list, updates the counter to
S+N, and is a no-op returning the empty list on an empty input. -/
theorem c4_append_sequencing :
    ∀ (s : EventStream) (events : List Event) (now : Nat),
      ((s.append events now).1.map (·.sequenceNumber) =
          List.range' (s.lastSequenceNumber + 1) events.length) ∧
      ((s.append events now).1.map (·.eventType) = events.map (·.eventType)) ∧
      ((s.append events now).1.map (·.payload) = events.map (·.payload)) ∧
      ((s.append events now).1.map (·.timestamp) = List.replicate events.length now) ∧
      ((s.append events now).2.eventRecords = s.eventRecords ++ (s.append events now).1) ∧
      ((s.append events now).2.lastSequenceNumber = s.lastSequenceNumber + events.length) ∧
      (events = [] → s.append events now = ([], s)) := by
  intro s events now
  refine ⟨mkRecords_map_seq now events s.lastSequenceNumber,
    mkRecords_map_eventType now events s.lastSequenceNumber,
    mkRecords_map_payload now events s.lastSequenceNumber,
    mkRecords_map_timestamp now events s.lastSequenceNumber, rfl, rfl, ?_⟩
  intro he
  subst he
  simp [EventStream.append, mkRecords]

/-- Witness for C4: appending the empty event list to the empty stream
changes nothing and returns the empty record list. -/
theorem c4_append_sequencing_witness :
    EventStream.empty.append [] 5 = ([], EventStream.empty) :=
  (c4_append_sequencing EventStream.empty [] 5).2.2.2.2.2.2 rfl

/-- C5: for every stream — including the empty one and streams whose
payloads contain nested mappings and sequences — deserializing the
serialized form reproduces the stream exactly: same records (sequence
numbers, timestamps, event types, payload structure) and same
`lastSequenceNumber`. -/
theorem c5_serialize_roundtrip :
    ∀ s : EventStream, EventStream.deserialize (EventStream.serialize s) = some s := by
  intro s
  obtain ⟨rs, n⟩ := s
  simp [EventStream.serialize, EventStream.deserialize, lookupField]
  rw [show List.mapM.loop jsonToRecord (List.map recordToJson rs) [] =
        (List.map recordToJson rs).mapM jsonToRecord from rfl,
    mapM_jsonToRecord_map_recordToJson rs]

/-- C6: for every query result produced by `queryWithLock` (hence by
`query`) and by `queryAll`, the `maxSequenceNumber` field equals the
sequence number of the last element of the returned event list, or 0 when
that list is empty. -/
theorem c6_max_sequence_number :
    ∀ (records : List EventRecord) (q : Option EventQuery) (s : MemoryEventStore),
      ((queryWithLockResult records q).maxSequenceNumber =
        ((queryWithLockResult records q).events.getLast?).elim 0 (·.sequenceNumber)) ∧
      ((s.queryAll).maxSequenceNumber =
        ((s.queryAll).events.getLast?).elim 0 (·.sequenceNumber)) := by
  intro records q s
  constructor
  · simp only [queryWithLockResult]
    cases hm : processQuery records q with
    | nil => simp
    | cons a l => simp
  · simp only [MemoryEventStore.queryAll]
    cases hm : s.eventStream.eventRecords with
    | nil => simp
    | cons a l => simp

theorem listAnyDeepEq_iff (p : StructuredValue) (vs : List StructuredValue) :
    listAnyDeepEq p vs = true ↔ ∃ v ∈ vs, p = v := by
  simp only [listAnyDeepEq, List.any_eq_true]
  constructor
  · rintro ⟨v, hv, he⟩
    exact ⟨v, hv, (deepEquals_iff p v).mp he⟩
  · rintro ⟨v, hv, he⟩
    exact ⟨v, hv, (deepEquals_iff p v).mpr he⟩

theorem arrContains_iff :
    ∀ ps vs : List StructuredValue,
      arrContains ps vs = true ↔ ∀ p ∈ ps, ∃ v ∈ vs, p = v
  | [], vs => by simp [arrContains]
  | p :: ps, vs => by
      simp only [arrContains, Bool.and_eq_true, List.mem_cons, forall_eq_or_imp]
      exact and_congr (listAnyDeepEq_iff p vs) (arrContains_iff ps vs)

/-- C3: a record is kept by `processQuery` exactly when some filter of the
query accepts it — its event type is listed (or the filter's type list is
empty, meaning any type) and, when the predicate list is non-empty, some
predicate matches its payload; predicate matching requires every predicate
key to exist in the payload (a mapping) at the same path with a matching
value, where mapping values recurse as sub-predicates and sequence values
match by containment of deep-equal elements; and the query result preserves
ascending sequence-number order. -/
theorem c3_filter_matching :
    ∀ (records : List EventRecord) (q : EventQuery) (r : EventRecord),
      (r ∈ processQuery records (some q) ↔
        r ∈ records ∧ ∃ f ∈ q.filters,
          (f.eventTypes = [] ∨ r.eventType ∈ f.eventTypes) ∧
          (f.payloadPredicates = [] ∨
            ∃ p ∈ f.payloadPredicates, predicateMatches p r.payload = true)) ∧
      (∀ (k : String) (pv : StructuredValue) (rest : List (String × StructuredValue))
          (payload : StructuredValue),
        predicateMatches ((k, pv) :: rest) payload = true ↔
          ((∃ fields v, payload = .obj fields ∧ lookupField fields k = some v ∧
              valueMatches pv v = true) ∧ predicateMatches rest payload = true)) ∧
      (∀ ps vs : List StructuredValue,
        valueMatches (.arr ps) (.arr vs) = true ↔ ∀ p ∈ ps, ∃ v ∈ vs, p = v) ∧
      (List.Pairwise (fun a b => a.sequenceNumber < b.sequenceNumber) records →
        List.Pairwise (fun a b => a.sequenceNumber < b.sequenceNumber)
          (processQuery records (some q))) := by
  intro records q r
  refine ⟨?_, ?_, ?_, ?_⟩
  · simp [processQuery, List.mem_filter, recordMatchesQuery, List.any_eq_true,
      recordMatchesFilter, Bool.and_eq_true, Bool.or_eq_true, List.isEmpty_iff]
  · intro k pv rest payload
    cases payload with
    | obj fields =>
        simp only [predicateMatches, Bool.and_eq_true]
        cases hl : lookupField fields k with
        | none => simp [hl]
        | some v => simp [hl]
    | null => simp [predicateMatches]
    | bool b => simp [predicateMatches]
    | num m => simp [predicateMatches]
    | str st => simp [predicateMatches]
    | arr es => simp [predicateMatches]
  · intro ps vs
    simpa [valueMatches] using arrContains_iff ps vs
  · intro hp
    exact hp.sublist (List.filter_sublist records)

/-- Witness for C3: on a concrete sorted record list, the query for event
type e1 returns a list still in ascending sequence-number order. -/
theorem c3_filter_matching_witness :
    List.Pairwise (fun a b => a.sequenceNumber < b.sequenceNumber)
      (processQuery
        [{ sequenceNumber := 1, timestamp := 0, eventType := "e1", payload := .obj [] },
         { sequenceNumber := 2, timestamp := 0, eventType := "e2", payload := .obj [] }]
        (some (createQuery [createFilter ["e1"] []]))) :=
  (c3_filter_matching
    [{ sequenceNumber := 1, timestamp := 0, eventType := "e1", payload := .obj [] },
     { sequenceNumber := 2, timestamp := 0, eventType := "e2", payload := .obj [] }]
    (createQuery [createFilter ["e1"] []])
    { sequenceNumber := 1, timestamp := 0, eventType := "e1", payload := .obj [] }).2.2.2
    (by simp)

/-- C2: every call `append(events, queryOrFilter, 0)` — a supplied context
whose expected maxSequenceNumber is 0 — skips the consistency re-check
entirely (the JS guard tests number truthiness), so the append succeeds and
writes the events whatever the context query currently matches: the call is
indistinguishable from an unconditional append. -/
theorem c2_zero_expected_skips_recheck :
    ∀ (s : MemoryEventStore) (events : List Event) (qof : Option QueryOrFilter) (now : Nat),
      s.append events qof (some 0) true now =
        (.ok (s.eventStream.append events now).1,
         { s with eventStream := (s.eventStream.append events now).2 }) := by
  intro s events qof now
  simp [MemoryEventStore.append, MemoryEventStore.appendBody]

/-- C1 counterexample: a store holding one `e1` record, and an append that
supplies the `e1`-filter context with expected maxSequenceNumber 0. The
re-check the claim requires would compute 1 ≠ 0 and fail with a conflict,
but the call succeeds and writes the record, because the JS truthiness
guard skips the re-check when the expected value is 0. -/
theorem c1_counterexample :
    ((queryWithLockResult
        [{ sequenceNumber := 1, timestamp := 0, eventType := "e1", payload := .obj [] }]
        (normalizeQuery (some (.filter (createFilter ["e1"] []))))).maxSequenceNumber = 1) ∧
    (MemoryEventStore.append
        { eventStream :=
            { eventRecords :=
                [{ sequenceNumber := 1, timestamp := 0, eventType := "e1", payload := .obj [] }],
              lastSequenceNumber := 1 },
          writeThru := false }
        [{ eventType := "e2", payload := .obj [] }]
        (some (.filter (createFilter ["e1"] []))) (some 0) true 7 =
      (.ok [{ sequenceNumber := 2, timestamp := 7, eventType := "e2", payload := .obj [] }],
       { eventStream :=
           { eventRecords :=
               [{ sequenceNumber := 1, timestamp := 0, eventType := "e1", payload := .obj [] },
                { sequenceNumber := 2, timestamp := 7, eventType := "e2", payload := .obj [] }],
             lastSequenceNumber := 2 },
         writeThru := false })) := by
  exact ⟨rfl, rfl⟩

/-- C1 (amended): for every append call that supplies a context with a
nonzero expected maxSequenceNumber, the store re-runs the context query
against the current records; if the resulting maxSequenceNumber differs
from the expected value the append fails with a conflict error and no
records are written, and if it equals the expected value the events are
appended (the expected-value-0 case instead skips the re-check, see the
counterexample). -/
theorem c1_conditional_append_amended :
    ∀ (s : MemoryEventStore) (events : List Event) (qof : Option QueryOrFilter)
      (n : Nat) (persistOk : Bool) (now : Nat), n ≠ 0 →
      (((queryWithLockResult s.eventStream.eventRecords
            (normalizeQuery qof)).maxSequenceNumber ≠ n →
          s.append events qof (some n) persistOk now = (.error .conflict, s)) ∧
       ((queryWithLockResult s.eventStream.eventRecords
            (normalizeQuery qof)).maxSequenceNumber = n →
          (s.append events qof (some n) persistOk now =
            MemoryEventStore.appendBody s events persistOk now ∧
          (s.append events qof (some n) persistOk now).2.eventStream.eventRecords =
            s.eventStream.eventRecords ++ (s.eventStream.append events now).1))) := by
  intro s events qof n persistOk now hn
  constructor
  · intro hne
    simp [MemoryEventStore.append, hn, hne]
  · intro heq
    have hb : s.append events qof (some n) persistOk now =
        MemoryEventStore.appendBody s events persistOk now := by
      simp [MemoryEventStore.append, hn, heq]
    refine ⟨hb, ?_⟩
    rw [hb]
    simp only [MemoryEventStore.appendBody]
    split <;> rfl

/-- Witness for C1 (amended): in a store whose only record is an `e1` record
with sequence number 1, an append supplying the `e1` context with expected
maxSequenceNumber 5 hits the re-check (5 ≠ 0), which computes 1 ≠ 5, so the
call fails with a conflict and leaves the store unchanged. -/
theorem c1_conditional_append_amended_witness :
    MemoryEventStore.append
        { eventStream :=
            { eventRecords :=
                [{ sequenceNumber := 1, timestamp := 0, eventType := "e1", payload := .obj [] }],
              lastSequenceNumber := 1 },
          writeThru := false }
        [{ eventType := "e2", payload := .obj [] }]
        (some (.filter (createFilter ["e1"] []))) (some 5) true 7 =
      (.error .conflict,
       { eventStream :=
           { eventRecords :=
               [{ sequenceNumber := 1, timestamp := 0, eventType := "e1", payload := .obj [] }],
             lastSequenceNumber := 1 },
         writeThru := false }) :=
  (c1_conditional_append_amended
    { eventStream :=
        { eventRecords :=
            [{ sequenceNumber := 1, timestamp := 0, eventType := "e1", payload := .obj [] }],
          lastSequenceNumber := 1 },
      writeThru := false }
    [{ eventType := "e2", payload := .obj [] }]
    (some (.filter (createFilter ["e1"] []))) 5 true 7 (by decide)).1 (by decide)

/-- C7 counterexample: `queryAll` reads the shared record sequence while no
lock section is open — its action trace fails the lock discipline check. -/
theorem c7_counterexample : disciplined queryAllTrace = false := rfl

/-- C7 (amended): `query` and `append` touch the shared state (record
sequence, counter, subscriber list) only inside lock sections — their traces
pass the discipline check on every branch shape — but `queryAll`, unlike
`query`, reads the record sequence without acquiring any lock, so not every
public operation goes through the lock. -/
theorem c7_lock_discipline_amended :
    (disciplined queryTrace = true) ∧
    (∀ hasContext conflict writeThru persistOk : Bool,
      disciplined (appendTrace hasContext conflict writeThru persistOk) = true) ∧
    (disciplined queryAllTrace = false) := by
  refine ⟨rfl, ?_, rfl⟩
  intro a b c d
  cases a <;> cases b <;> cases c <;> cases d <;> rfl

/-- C8: when the write-through persistence step of an append fails, the
failure propagates to the caller as a persistence-failure error while the
in-memory log retains the newly appended records (the documented
partial-success state), and the write lock is still released: the trace of
that branch is discipline-balanced and ends with the write release. -/
theorem c8_persistence_failure_partial_success :
    ∀ (s : MemoryEventStore) (events : List Event) (qof : Option QueryOrFilter)
      (expected : Option Nat) (now : Nat),
      s.writeThru = true →
      (expected.getD 0 ≠ 0 →
        (queryWithLockResult s.eventStream.eventRecords
            (normalizeQuery qof)).maxSequenceNumber = expected.getD 0) →
      ((s.append events qof expected false now).1 = .error .persistenceFailure ∧
       (s.append events qof expected false now).2.eventStream.eventRecords =
         s.eventStream.eventRecords ++ (s.eventStream.append events now).1 ∧
       disciplined (appendTrace (expected.getD 0 != 0) false true false) = true ∧
       (appendTrace (expected.getD 0 != 0) false true false).getLast? =
         some .releaseWrite) := by
  intro s events qof expected now hw hnoc
  have hb : s.append events qof expected false now =
      MemoryEventStore.appendBody s events false now := by
    by_cases hc : expected.getD 0 = 0
    · simp [MemoryEventStore.append, hc]
    · simp [MemoryEventStore.append, hc, hnoc hc]
  have hbody : MemoryEventStore.appendBody s events false now =
      (.error .persistenceFailure,
       { s with eventStream := (s.eventStream.append events now).2 }) := by
    simp [MemoryEventStore.appendBody, hw]
  refine ⟨by rw [hb, hbody], by rw [hb, hbody]; rfl, ?_, ?_⟩ <;>
    cases hd : expected.getD 0 != 0 <;> rfl

/-- Witness for C8: appending one event to an empty write-through store
whose persistence step fails yields the persistence-failure error while the
record is nevertheless in memory. -/
theorem c8_persistence_failure_partial_success_witness :
    (MemoryEventStore.append
        { eventStream := { eventRecords := [], lastSequenceNumber := 0 }, writeThru := true }
        [{ eventType := "e1", payload := .obj [] }] none none false 3).1 =
      .error .persistenceFailure ∧
    (MemoryEventStore.append
        { eventStream := { eventRecords := [], lastSequenceNumber := 0 }, writeThru := true }
        [{ eventType := "e1", payload := .obj [] }] none none false 3).2.eventStream.eventRecords
      = [] ++ (EventStream.append { eventRecords := [], lastSequenceNumber := 0 }
          [{ eventType := "e1", payload := .obj [] }] 3).1 := by
  have h := c8_persistence_failure_partial_success
    { eventStream := { eventRecords := [], lastSequenceNumber := 0 }, writeThru := true }
    [{ eventType := "e1", payload := .obj [] }] none none 3 rfl (by decide)
  exact ⟨h.1, h.2.1⟩

/-- C10: the notifier is awaited inside the write-lock section, before the
lock is released (in every successful append trace the notification action
precedes the release); yet no deadlock can arise from a subscriber handler
re-entering append while that lock is held, because the notifier (modelled
from spec §5, `notifiers/index.ts` not being in the source snapshot) only
schedules delivery and completes without awaiting handlers, so the append
trace reaches its release on every path, after which a handler's pending
write request is granted at once by the lock. -/
theorem c10_notify_in_lock_no_deadlock :
    (∀ hasContext writeThru : Bool,
      (appendTrace hasContext false writeThru true).indexOf .notifySubscribers <
        (appendTrace hasContext false writeThru true).indexOf .releaseWrite) ∧
    (∀ hasContext conflict writeThru persistOk : Bool,
      (appendTrace hasContext conflict writeThru persistOk).getLast? =
        some .releaseWrite) ∧
    (∀ (b : Nat) (q2 : List (Nat × ReqKind)),
      runLock { activeReaders := 0, writerActive := true, queue := (b, .write) :: q2 }
        [.releaseWrite, .grant b .write] =
        some { activeReaders := 0, writerActive := true, queue := q2 }) := by
  refine ⟨?_, ?_, ?_⟩
  · intro a c
    cases a <;> cases c <;> decide
  · intro a b c d
    cases a <;> cases b <;> cases c <;> cases d <;> rfl
  · intro b q2
    simp [runLock, lockStep]

end EventStore
